import Mathlib

/-!
Verification of the sessions dashboard (streamlit_dashboard.py).

The dashboard loads session documents from a document store into a pandas
DataFrame, flattens three nested sub-objects into nine derived columns,
filters by date range / device / session type, and computes aggregates for
display plus a CSV export.  This file gives a shallow embedding of that
pipeline: rows are structures, the DataFrame is a list of rows, numeric
columns are rationals, `NaN` results (pandas mean of an empty column,
numpy division by a zero row count) are represented by `Option.none`, and
the failure of a column `.apply` lambda is an `Except.error`.
-/

/-- Calendar timestamp as produced by pd.to_datetime: a calendar day (as an
integer day number) plus a time-of-day component.  The dashboard only ever
compares the date portion. -/
structure DateTime where
  day : Int
  msOfDay : Nat
deriving DecidableEq

/-- Date portion of a timestamp, as in the code's startTime.dt.date. -/
def DateTime.date (d : DateTime) : Int := d.day

/-- Nested deviceInfo sub-object; each key may be absent (dict.get). -/
structure DeviceInfo where
  device : Option String
  browser : Option String
deriving DecidableEq

/-- Nested sessionMetadata sub-object; each key may be absent. -/
structure SessionMetadata where
  source : Option String
  sales : Option ℚ
  pageViews : Option ℚ
  duration : Option ℚ
deriving DecidableEq

/-- Nested sessionTags sub-object; each key may be absent. -/
structure SessionTags where
  type : Option String
  segment : Option String
  category : Option String
deriving DecidableEq

/-- One session document as loaded from the store.  A sub-object that is
absent in the document materializes as NaN in the DataFrame column, which
we model as none. -/
structure SessionRecord where
  id : String
  startTime : DateTime
  lastActivity : DateTime
  deviceInfo : Option DeviceInfo
  sessionMetadata : Option SessionMetadata
  sessionTags : Option SessionTags
deriving DecidableEq

/-- A row of the normalized DataFrame: the raw record together with the
nine derived flat columns added by lines 50-58 of the source. -/
structure NormRecord where
  raw : SessionRecord
  device : String
  browser : String
  source : String
  sales : ℚ
  pageViews : ℚ
  duration : ℚ
  session_type : String
  segment : String
  category : String
deriving DecidableEq

/-- Field normalization, the per-record meaning of the nine column
assignments df[c] = df[sub].apply(lambda x: x.get(key, default)).
When a sub-object is present, dict.get supplies the documented default for
an absent key; when the sub-object itself is absent the column holds NaN
and x.get raises AttributeError, modeled as Except.error. -/
def normalizeRecord (r : SessionRecord) : Except String NormRecord :=
  match r.deviceInfo, r.sessionMetadata, r.sessionTags with
  | some di, some sm, some tg =>
      Except.ok
        { raw := r
          device := di.device.getD "Unknown"
          browser := di.browser.getD "Unknown"
          source := sm.source.getD "Unknown"
          sales := sm.sales.getD 0
          pageViews := sm.pageViews.getD 0
          duration := sm.duration.getD 0
          session_type := tg.type.getD "Unknown"
          segment := tg.segment.getD "Unknown"
          category := tg.category.getD "Unknown" }
  | _, _, _ => Except.error "AttributeError"

/-- The sidebar filter selections: date_range, devices, session_types. -/
structure FilterOpts where
  start_date : Int
  end_date : Int
  devices : List String
  session_types : List String
deriving DecidableEq

/-- The row predicate of the boolean-mask conjunction at lines 86-91:
startTime.dt.date between the two dates, device isin devices,
session_type isin session_types. -/
def rowPass (o : FilterOpts) (r : NormRecord) : Bool :=
  decide (o.start_date ≤ r.raw.startTime.date) &&
  decide (r.raw.startTime.date ≤ o.end_date) &&
  decide (r.device ∈ o.devices) &&
  decide (r.session_type ∈ o.session_types)

/-- The Filter Engine: filtered_df = df[mask], a derived view of the rows
whose mask entry is True, in input order. -/
def filtered_df (t : List NormRecord) (o : FilterOpts) : List NormRecord :=
  t.filter (rowPass o)

/-- Modelled from the spec: a row is kept when its startTime date lies in
[start_date, end_date] inclusive on both ends, its device is in the
allowed device set, and its session_type is in the allowed set. -/
def specKeep (o : FilterOpts) (r : NormRecord) : Bool :=
  decide (o.start_date ≤ r.raw.startTime.date ∧ r.raw.startTime.date ≤ o.end_date) &&
  decide (r.device ∈ o.devices) &&
  decide (r.session_type ∈ o.session_types)

/-- Row count of a table, len(filtered_df). -/
def count (t : List NormRecord) : Nat := t.length

/-- Sum of the sales column, filtered_df[sales].sum() at line 111. -/
def total_sales (t : List NormRecord) : ℚ := (t.map (·.sales)).sum

/-- Column mean, pandas Series.mean(): NaN on an empty column, modeled as
none; otherwise the sum divided by the row count. -/
def mean (f : NormRecord → ℚ) (t : List NormRecord) : Option ℚ :=
  if t.length = 0 then none else some ((t.map f).sum / (t.length : ℚ))

/-- Percentage of rows satisfying a predicate, mask.sum() / len(df) * 100.
With zero rows the numpy scalar division 0 / 0 yields NaN (a RuntimeWarning,
not an exception), modeled as none. -/
def rate (p : NormRecord → Bool) (t : List NormRecord) : Option ℚ :=
  if t.length = 0 then none
  else some ((((t.filter p).length : ℚ) / (t.length : ℚ)) * 100)

/-- Conversion Rate metric at line 119. -/
def conversion_rate (t : List NormRecord) : Option ℚ :=
  rate (fun r => r.session_type == "converted") t

/-- Avg Duration metric at line 115 (minutes). -/
def avg_duration (t : List NormRecord) : Option ℚ :=
  (mean (·.duration) t).map (· / 60)

/-- Avg Page Views metric at line 123. -/
def avg_pages (t : List NormRecord) : Option ℚ :=
  mean (·.pageViews) t

/-- Cart Abandonment Rate metric at line 196. -/
def cart_abandonment_rate (t : List NormRecord) : Option ℚ :=
  rate (fun r => r.session_type == "cart_abandoned") t

/-- Avg Sales/Session metric at line 200. -/
def avg_sales_per_session (t : List NormRecord) : Option ℚ :=
  mean (·.sales) t

/-- Bounce Rate metric at line 204. -/
def bounce_rate (t : List NormRecord) : Option ℚ :=
  rate (fun r => r.session_type == "bounced") t

/-- Stable insertion of an element into a list: the element goes in front
of the first entry it is le-related to.  Used to model the sorted output
orders of pandas groupby and sort_values. -/
def insertBy (le : α → α → Bool) (x : α) : List α → List α
  | [] => [x]
  | y :: ys => if le x y then x :: y :: ys else y :: insertBy le x ys

/-- Stable insertion sort by the boolean relation le. -/
def sortBy (le : α → α → Bool) : List α → List α
  | [] => []
  | x :: xs => insertBy le x (sortBy le xs)

/-- The distinct group keys of a groupby, in ascending key order (pandas
groupby defaults to sort=True). -/
def sortedKeys (key : NormRecord → String) (t : List NormRecord) : List String :=
  sortBy (fun a b => decide (a ≤ b)) ((t.map key).dedup)

/-- The groupby result before sort_values: each distinct key, ascending,
paired with the sum of the measure over its rows. -/
def groupPairs (key : NormRecord → String) (m : NormRecord → ℚ)
    (t : List NormRecord) : List (String × ℚ) :=
  (sortedKeys key t).map
    (fun k => (k, ((t.filter (fun r => decide (key r = k))).map m).sum))

/-- Grouped sum, df.groupby(g)[m].sum().sort_values(ascending=False):
groupby collects the distinct group keys in ascending key order and sums
the measure over each group; sort_values then reorders the groups by
descending sum.  sort_values defaults to kind=quicksort, which is not
stable, so the program fixes no particular order among groups with equal
sums; the insertion sort used here realizes one admissible descending
order, and theorems about group_sum assert only properties that hold for
every descending reordering of the group pairs (the descending sums, the
multiset of groups, and each group's summed value). -/
def group_sum (key : NormRecord → String) (m : NormRecord → ℚ)
    (t : List NormRecord) : List (String × ℚ) :=
  sortBy (fun a b => decide (b.2 ≤ a.2)) (groupPairs key m t)

/-- The distinct startTime dates of the table, ascending. -/
def sortedDates (t : List NormRecord) : List Int :=
  sortBy (fun a b => decide (a ≤ b)) ((t.map (fun r => r.raw.startTime.date)).dedup)

/-- Daily session counts, df.groupby(df.startTime.dt.date).size() at line
178: distinct dates in ascending order, each with its row count. -/
def time_series_count (t : List NormRecord) : List (Int × Nat) :=
  (sortedDates t).map
    (fun d => (d, (t.filter (fun r => decide (r.raw.startTime.date = d))).length))

/-- State of one render pass: the normalized source table df and the
derived view filtered_df. -/
structure DashState where
  df : List NormRecord
  view : List NormRecord
deriving DecidableEq

/-- The filter step of the render pass: computes the derived view from the
source table; df itself is only read. -/
def applyFilters (o : FilterOpts) (s : DashState) : DashState :=
  { df := s.df, view := filtered_df s.df o }

/-- A record whose three sub-objects are present but hold no keys at all:
every derived field must come out as its documented default. -/
def allKeysAbsent : SessionRecord :=
  { id := "s1", startTime := ⟨20000, 0⟩, lastActivity := ⟨20000, 5⟩,
    deviceInfo := some ⟨none, none⟩,
    sessionMetadata := some ⟨none, none, none, none⟩,
    sessionTags := some ⟨none, none, none⟩ }

/-- A record missing the deviceInfo sub-object entirely (its DataFrame
cell is NaN), with the other sub-objects present. -/
def missingDeviceInfo : SessionRecord :=
  { id := "s2", startTime := ⟨20000, 0⟩, lastActivity := ⟨20000, 5⟩,
    deviceInfo := none,
    sessionMetadata := some ⟨none, none, none, none⟩,
    sessionTags := some ⟨none, none, none⟩ }

/-- Escape the interior of a quoted CSV cell: each double quote inside
the cell is doubled. -/
def escQ : List Char → List Char
  | [] => []
  | c :: cs => if c = '"' then '"' :: '"' :: escQ cs else c :: escQ cs

/-- A cell needs quoting when it contains a separator, a quote, or a line
break (csv QUOTE_MINIMAL, the to_csv default). -/
def needsQuote (s : List Char) : Bool :=
  s.any (fun c => (c == ',') || (c == '"') || (c == '\n') || (c == '\r'))

/-- Serialize one CSV cell: quoted with doubled inner quotes when needed,
otherwise written raw. -/
def writeCell (s : List Char) : List Char :=
  if needsQuote s then '"' :: (escQ s ++ ['"']) else s

/-- Serialize one CSV row: cells joined by commas. -/
def writeRow : List (List Char) → List Char
  | [] => []
  | c :: cs => writeCell c ++ (if cs.isEmpty then [] else ',' :: writeRow cs)

/-- Serialize a CSV table: each row followed by a newline, as produced by
to_csv (index=False). -/
def writeTable : List (List (List Char)) → List Char
  | [] => []
  | row :: rows => writeRow row ++ '\n' :: writeTable rows

/-- Parse the interior of a quoted cell that the opening quote has already
been consumed from: a doubled quote contributes one quote to the cell, a
single quote closes the cell. -/
def parseQuoted : List Char → List Char × List Char
  | [] => ([], [])
  | c :: rest =>
    if c = '"' then
      match rest with
      | [] => ([], [])
      | c2 :: rest2 =>
        if c2 = '"' then ('"' :: (parseQuoted rest2).1, (parseQuoted rest2).2)
        else ([], rest)
    else (c :: (parseQuoted rest).1, (parseQuoted rest).2)

/-- Parse an unquoted cell: everything up to the next separator or line
break, which is left in the remainder. -/
def parseRaw : List Char → List Char × List Char
  | [] => ([], [])
  | c :: rest =>
    if c = ',' ∨ c = '\n' then ([], c :: rest)
    else (c :: (parseRaw rest).1, (parseRaw rest).2)

/-- Parse one cell, choosing the quoted or raw form by the first
character. -/
def parseCellStart : List Char → List Char × List Char
  | [] => ([], [])
  | c :: rest => if c = '"' then parseQuoted rest else parseRaw (c :: rest)

/-- Parse the cells of one row; the fuel bounds the number of cells. -/
def parseRowAux : Nat → List Char → List (List Char) × List Char
  | 0, l => ([], l)
  | n + 1, l =>
    let p := parseCellStart l
    match p.2 with
    | [] => ([p.1], [])
    | c :: r2 =>
      if c = ',' then (p.1 :: (parseRowAux n r2).1, (parseRowAux n r2).2)
      else if c = '\n' then ([p.1], r2)
      else ([p.1], c :: r2)

/-- Parse the rows of a CSV document; the fuel bounds the number of rows. -/
def parseRecsAux : Nat → List Char → List (List (List Char))
  | 0, _ => []
  | _ + 1, [] => []
  | n + 1, c :: l =>
    let p := parseRowAux ((c :: l).length + 1) (c :: l)
    p.1 :: parseRecsAux n p.2

/-- Parse a CSV document into its rows of cells. -/
def parseCSV (l : List Char) : List (List (List Char)) :=
  parseRecsAux (l.length + 1) l

/-- Decimal-free rendering of a rational cell value. -/
def showRat (q : ℚ) : String := toString q.num ++ "/" ++ toString q.den

/-- Rendering of a timestamp cell value. -/
def showDT (d : DateTime) : String := toString d.day ++ "T" ++ toString d.msOfDay

/-- Rendering of an optional string entry inside a sub-object cell. -/
def showOptS (o : Option String) : String := o.getD "NaN"

/-- Rendering of an optional numeric entry inside a sub-object cell. -/
def showOptQ (o : Option ℚ) : String :=
  match o with
  | none => "NaN"
  | some q => showRat q

/-- Stringification of the raw deviceInfo column (NaN when absent); like
the repr of a Python dict it contains commas, so it exercises quoting. -/
def showDeviceInfo (o : Option DeviceInfo) : String :=
  match o with
  | none => "NaN"
  | some d => "device: " ++ showOptS d.device ++ ", browser: " ++ showOptS d.browser

/-- Stringification of the raw sessionMetadata column. -/
def showSessionMetadata (o : Option SessionMetadata) : String :=
  match o with
  | none => "NaN"
  | some m => "source: " ++ showOptS m.source ++ ", sales: " ++ showOptQ m.sales ++
      ", pageViews: " ++ showOptQ m.pageViews ++ ", duration: " ++ showOptQ m.duration

/-- Stringification of the raw sessionTags column. -/
def showSessionTags (o : Option SessionTags) : String :=
  match o with
  | none => "NaN"
  | some tg => "type: " ++ showOptS tg.type ++ ", segment: " ++ showOptS tg.segment ++
      ", category: " ++ showOptS tg.category

/-- One CSV data row: the raw columns followed by the nine normalized
columns, stringified. -/
def rowToStrings (r : NormRecord) : List String :=
  [r.raw.id, showDT r.raw.startTime, showDT r.raw.lastActivity,
   showDeviceInfo r.raw.deviceInfo, showSessionMetadata r.raw.sessionMetadata,
   showSessionTags r.raw.sessionTags,
   r.device, r.browser, r.source, showRat r.sales, showRat r.pageViews,
   showRat r.duration, r.session_type, r.segment, r.category]

/-- The CSV header row: the filtered table's columns, raw then normalized. -/
def csvHeader : List String :=
  ["id", "startTime", "lastActivity", "deviceInfo", "sessionMetadata",
   "sessionTags", "device", "browser", "source", "sales", "pageViews",
   "duration", "session_type", "segment", "category"]

/-- The rows of the CSV export: header first, then one row per session,
each cell as its character list. -/
def csvRows (t : List NormRecord) : List (List (List Char)) :=
  (csvHeader :: t.map rowToStrings).map (fun row => row.map String.data)

/-- The CSV export string (as its character list), to_csv (index=False)
at line 96. -/
def to_csv (t : List NormRecord) : List Char := writeTable (csvRows t)

/-- A normalized row used in concrete tables; group key b, sales 10. -/
def recB : NormRecord :=
  { raw := { id := "r1", startTime := ⟨20000, 0⟩, lastActivity := ⟨20000, 10⟩,
             deviceInfo := some ⟨some "mobile", some "chrome"⟩,
             sessionMetadata := some ⟨some "b", some 10, some 1, some 30⟩,
             sessionTags := some ⟨some "converted", some "new", some "x"⟩ },
    device := "mobile", browser := "chrome", source := "b", sales := 10,
    pageViews := 1, duration := 30, session_type := "converted",
    segment := "new", category := "x" }

/-- A second normalized row; group key a, sales 10, a different date. -/
def recA : NormRecord :=
  { raw := { id := "r2", startTime := ⟨20003, 0⟩, lastActivity := ⟨20003, 10⟩,
             deviceInfo := some ⟨some "desktop", some "firefox"⟩,
             sessionMetadata := some ⟨some "a", some 10, some 2, some 60⟩,
             sessionTags := some ⟨some "bounced", some "returning", some "y"⟩ },
    device := "desktop", browser := "firefox", source := "a", sales := 10,
    pageViews := 2, duration := 60, session_type := "bounced",
    segment := "returning", category := "y" }

/-- A concrete two-row table: source b appears before source a, and both
groups have the same total sales. -/
def exTable : List NormRecord := [recB, recA]

theorem mem_insertBy {α : Type} (le : α → α → Bool) (x y : α) (l : List α) :
    y ∈ insertBy le x l ↔ y = x ∨ y ∈ l := by
  induction l with
  | nil => simp [insertBy]
  | cons z zs ih =>
    by_cases h : le x z = true
    · simp only [insertBy, if_pos h, List.mem_cons]
    · simp only [insertBy, if_neg h, List.mem_cons, ih]
      tauto

theorem insertBy_perm {α : Type} (le : α → α → Bool) (x : α) (l : List α) :
    (insertBy le x l).Perm (x :: l) := by
  induction l with
  | nil => simp [insertBy]
  | cons z zs ih =>
    by_cases h : le x z = true
    · simp [insertBy, h]
    · simp only [insertBy, if_neg h]
      exact (ih.cons z).trans (List.Perm.swap x z zs)

theorem sortBy_perm {α : Type} (le : α → α → Bool) (l : List α) :
    (sortBy le l).Perm l := by
  induction l with
  | nil => simp [sortBy]
  | cons x xs ih => exact (insertBy_perm le x (sortBy le xs)).trans (ih.cons x)

theorem pairwise_insertBy {α : Type} (le : α → α → Bool)
    (htot : ∀ a b, le a b = true ∨ le b a = true)
    (htr : ∀ a b c, le a b = true → le b c = true → le a c = true)
    (x : α) (l : List α) (hl : l.Pairwise (fun a b => le a b = true)) :
    (insertBy le x l).Pairwise (fun a b => le a b = true) := by
  induction l with
  | nil => simp [insertBy]
  | cons z zs ih =>
    rcases List.pairwise_cons.mp hl with ⟨hz, hzs⟩
    by_cases h : le x z = true
    · simp only [insertBy, if_pos h]
      refine List.pairwise_cons.mpr ⟨?_, hl⟩
      intro b hb
      rcases List.mem_cons.mp hb with rfl | hb'
      · exact h
      · exact htr x z b h (hz b hb')
    · simp only [insertBy, if_neg h]
      refine List.pairwise_cons.mpr ⟨?_, ih hzs⟩
      intro b hb
      rcases (mem_insertBy le x b zs).mp hb with hbx | hb'
      · rw [hbx]
        rcases htot x z with h1 | h1
        · exact absurd h1 h
        · exact h1
      · exact hz b hb'

theorem pairwise_sortBy {α : Type} (le : α → α → Bool)
    (htot : ∀ a b, le a b = true ∨ le b a = true)
    (htr : ∀ a b c, le a b = true → le b c = true → le a c = true)
    (l : List α) :
    (sortBy le l).Pairwise (fun a b => le a b = true) := by
  induction l with
  | nil => simp [sortBy]
  | cons x xs ih => exact pairwise_insertBy le htot htr x _ ih

/-- C1 (amended): normalization of any record whose three nested
sub-objects are present never raises and produces exactly the nine derived
flat fields, each nested key defaulting to "Unknown" (categorical) or 0
(numeric) when absent. -/
theorem C1_normalization_defaults (r : SessionRecord)
    (di : DeviceInfo) (sm : SessionMetadata) (tg : SessionTags)
    (h1 : r.deviceInfo = some di) (h2 : r.sessionMetadata = some sm)
    (h3 : r.sessionTags = some tg) :
    normalizeRecord r = Except.ok
      { raw := r
        device := di.device.getD "Unknown"
        browser := di.browser.getD "Unknown"
        source := sm.source.getD "Unknown"
        sales := sm.sales.getD 0
        pageViews := sm.pageViews.getD 0
        duration := sm.duration.getD 0
        session_type := tg.type.getD "Unknown"
        segment := tg.segment.getD "Unknown"
        category := tg.category.getD "Unknown" } := by
  unfold normalizeRecord
  rw [h1, h2, h3]

/-- Witness for C1: the record with all sub-objects present but every
nested key absent normalizes, without raising, to the nine documented
defaults. -/
theorem C1_normalization_defaults_witness :
    normalizeRecord allKeysAbsent = Except.ok
      { raw := allKeysAbsent, device := "Unknown", browser := "Unknown",
        source := "Unknown", sales := 0, pageViews := 0, duration := 0,
        session_type := "Unknown", segment := "Unknown", category := "Unknown" } :=
  C1_normalization_defaults allKeysAbsent ⟨none, none⟩ ⟨none, none, none, none⟩
    ⟨none, none, none⟩ rfl rfl rfl

/-- Counterexample for C1 as stated: a record missing the deviceInfo
sub-object leaves NaN in that column, so the extraction lambda raises
AttributeError instead of producing the defaults. -/
theorem C1_counterexample :
    normalizeRecord missingDeviceInfo = Except.error "AttributeError" := rfl

/-- C2: on a filtered table with zero rows, count is 0 and every mean and
rate metric of the dashboard evaluates to the NaN sentinel (none) rather
than propagating a division-by-zero fault. -/
theorem C2_empty_table_sentinels (t : List NormRecord)
    (f : NormRecord → ℚ) (p : NormRecord → Bool) (h : count t = 0) :
    count t = 0 ∧ mean f t = none ∧ rate p t = none ∧
    conversion_rate t = none ∧ avg_duration t = none ∧ avg_pages t = none ∧
    cart_abandonment_rate t = none ∧ avg_sales_per_session t = none ∧
    bounce_rate t = none := by
  have hl : t.length = 0 := h
  refine ⟨h, ?_, ?_, ?_, ?_, ?_, ?_, ?_, ?_⟩ <;>
    simp [mean, rate, conversion_rate, avg_duration, avg_pages,
      cart_abandonment_rate, avg_sales_per_session, bounce_rate, hl]

/-- Witness for C2: the empty table itself. -/
theorem C2_empty_table_sentinels_witness :
    count ([] : List NormRecord) = 0 ∧ mean (·.sales) [] = none ∧
    rate (fun r => r.session_type == "converted") [] = none ∧
    conversion_rate [] = none ∧ avg_duration [] = none ∧ avg_pages [] = none ∧
    cart_abandonment_rate [] = none ∧ avg_sales_per_session [] = none ∧
    bounce_rate [] = none :=
  C2_empty_table_sentinels [] (·.sales) (fun r => r.session_type == "converted") rfl

/-- C4: the Filter Engine output is exactly the rows satisfying the
spec's conjunction (date in the inclusive range, device allowed,
session_type allowed), as a subsequence of the input in input order. -/
theorem C4_filter_exact (t : List NormRecord) (o : FilterOpts) :
    filtered_df t o = t.filter (specKeep o) ∧ (filtered_df t o).Sublist t := by
  constructor
  · unfold filtered_df
    apply List.filter_congr
    intro r _
    simp [rowPass, specKeep, Bool.and_assoc]
  · exact List.filter_sublist t

/-- C5: a date range with start_date greater than end_date filters every
table to the empty result rather than failing. -/
theorem C5_inverted_range_empty (t : List NormRecord) (o : FilterOpts)
    (h : o.end_date < o.start_date) : filtered_df t o = [] := by
  unfold filtered_df
  apply List.filter_eq_nil_iff.mpr
  intro r _
  intro hpass
  simp only [rowPass, Bool.and_eq_true, decide_eq_true_eq] at hpass
  obtain ⟨⟨⟨ha, hb⟩, -⟩, -⟩ := hpass
  omega

/-- Witness for C5: the two-row example table with the range 5 > 3
filters to no rows. -/
theorem C5_inverted_range_empty_witness :
    filtered_df exTable ⟨5, 3, ["mobile", "desktop"], ["converted", "bounced"]⟩ = [] :=
  C5_inverted_range_empty exTable _ (by decide)

/-- C6: the Filter Engine is idempotent: filtering its own output with
the same options returns the output unchanged. -/
theorem C6_filter_idempotent (t : List NormRecord) (o : FilterOpts) :
    filtered_df (filtered_df t o) o = filtered_df t o := by
  unfold filtered_df
  induction t with
  | nil => rfl
  | cons a l ih =>
    by_cases hp : rowPass o a = true
    · simp [List.filter_cons, hp, ih]
    · simp [List.filter_cons, hp, ih]

/-- C9: computing the filtered view leaves the source table unchanged:
after the filter step df is exactly what it was, and repeating the step
produces an identical state. -/
theorem C9_filter_preserves_source (s : DashState) (o : FilterOpts) :
    (applyFilters o s).df = s.df ∧
    applyFilters o (applyFilters o s) = applyFilters o s :=
  ⟨rfl, rfl⟩

theorem sortedDates_strict (t : List NormRecord) :
    (sortedDates t).Pairwise (fun a b : Int => a < b) := by
  have hle := pairwise_sortBy (fun a b : Int => decide (a ≤ b))
    (fun a b => (le_total a b).imp decide_eq_true decide_eq_true)
    (fun a b c h1 h2 =>
      decide_eq_true (le_trans (of_decide_eq_true h1) (of_decide_eq_true h2)))
    ((t.map (fun r => r.raw.startTime.date)).dedup)
  have hnd : (sortedDates t).Nodup :=
    ((sortBy_perm _ _).nodup_iff).mpr (List.nodup_dedup _)
  exact (hle.and hnd).imp
    (fun hab => lt_of_le_of_ne (of_decide_eq_true hab.1) hab.2)

/-- C3 (amended): group_sum output is sorted descending by summed value
and is a permutation of the per-key group sums (each distinct group key
paired with the sum of the measure over its rows); each output pair
carries the sum of the measure over the rows of its group.  The order
among groups with equal sums is not specified by the program (sort_values
defaults to the unstable quicksort), and in particular is not input
first-appearance order. -/
theorem C3_group_sum_sorted (key : NormRecord → String) (m : NormRecord → ℚ)
    (t : List NormRecord) :
    (group_sum key m t).Pairwise (fun a b : String × ℚ => b.2 ≤ a.2) ∧
    (group_sum key m t).Perm (groupPairs key m t) ∧
    ∀ p ∈ group_sum key m t,
      p.2 = ((t.filter (fun r => decide (key r = p.1))).map m).sum := by
  refine ⟨?_, sortBy_perm _ _, ?_⟩
  · have h := pairwise_sortBy (fun a b : String × ℚ => decide (b.2 ≤ a.2))
      (fun a b => (le_total b.2 a.2).imp decide_eq_true decide_eq_true)
      (fun a b c h1 h2 =>
        decide_eq_true (le_trans (of_decide_eq_true h2) (of_decide_eq_true h1)))
      (groupPairs key m t)
    exact h.imp (fun hab => of_decide_eq_true hab)
  · intro p hp
    have hp' : p ∈ groupPairs key m t := (sortBy_perm _ _).mem_iff.mp hp
    rcases List.mem_map.mp hp' with ⟨k, hk, hpk⟩
    subst hpk
    rfl

theorem sortedKeys_exTable :
    sortedKeys (fun r => r.source) exTable = ["a", "b"] := by
  unfold sortedKeys
  have h : (exTable.map (fun r => r.source)).dedup = ["b", "a"] := by decide
  rw [h]
  simp [sortBy, insertBy]
  decide

theorem groupPairs_exTable :
    groupPairs (fun r => r.source) (fun r => r.sales) exTable =
      [("a", 10), ("b", 10)] := by
  unfold groupPairs
  rw [sortedKeys_exTable]
  simp [exTable, recA, recB]

theorem group_sum_exTable_eval :
    group_sum (fun r => r.source) (fun r => r.sales) exTable =
      [("a", 10), ("b", 10)] := by
  unfold group_sum
  rw [groupPairs_exTable]
  decide

/-- Witness for C3 (amended), on the two-row example table. -/
theorem C3_group_sum_sorted_witness :
    (group_sum (fun r => r.source) (fun r => r.sales) exTable).Pairwise
      (fun a b : String × ℚ => b.2 ≤ a.2) ∧
    (10 : ℚ) = ((exTable.filter (fun r => decide (r.source = "a"))).map
      (fun r => r.sales)).sum := by
  constructor
  · exact (C3_group_sum_sorted (fun r => r.source) (fun r => r.sales) exTable).1
  · exact (C3_group_sum_sorted (fun r => r.source) (fun r => r.sales) exTable).2.2
      ("a", 10) (by rw [group_sum_exTable_eval]; simp)

/-- Counterexample for C3 as stated: in the example table the group keys
first appear in the order b, a and both groups sum to 10, yet group_sum
lists group a first — equal sums do not retain input first-appearance
order. -/
theorem C3_counterexample :
    ((exTable.map (fun r => r.source)).dedup = ["b", "a"]) ∧
    recB.sales = recA.sales ∧
    group_sum (fun r => r.source) (fun r => r.sales) exTable =
      [("a", 10), ("b", 10)] :=
  ⟨by decide, rfl, group_sum_exTable_eval⟩

/-- C7: time_series_count maps each distinct startTime date to its row
count, in strictly ascending (chronological) date order; a date appears
in the output iff some row carries it, so dates with zero sessions are
absent, and every listed count is positive. -/
theorem C7_time_series (t : List NormRecord) :
    ((time_series_count t).map (fun p : Int × Nat => p.1)).Pairwise
      (fun a b : Int => a < b) ∧
    (∀ p ∈ time_series_count t,
        p.2 = (t.filter (fun r => decide (r.raw.startTime.date = p.1))).length ∧
        0 < p.2) ∧
    (∀ d : Int, (d ∈ (time_series_count t).map (fun p : Int × Nat => p.1)) ↔
        ∃ r ∈ t, r.raw.startTime.date = d) := by
  have hfst : (time_series_count t).map (fun p : Int × Nat => p.1) = sortedDates t := by
    unfold time_series_count
    rw [List.map_map]
    exact List.map_id _
  refine ⟨?_, ?_, ?_⟩
  · rw [hfst]
    exact sortedDates_strict t
  · intro p hp
    rcases List.mem_map.mp hp with ⟨d, hd, hpd⟩
    subst hpd
    refine ⟨rfl, ?_⟩
    have hd' : d ∈ (t.map (fun r => r.raw.startTime.date)).dedup :=
      (sortBy_perm _ _).mem_iff.mp hd
    rcases List.mem_map.mp (List.mem_dedup.mp hd') with ⟨r, hr, hrd⟩
    exact List.length_pos_of_mem
      (List.mem_filter.mpr ⟨hr, decide_eq_true hrd⟩)
  · intro d
    rw [hfst]
    constructor
    · intro hd
      have hd' := List.mem_dedup.mp ((sortBy_perm _ _).mem_iff.mp hd)
      rcases List.mem_map.mp hd' with ⟨r, hr, hrd⟩
      exact ⟨r, hr, hrd⟩
    · rintro ⟨r, hr, hrd⟩
      exact (sortBy_perm _ _).mem_iff.mpr
        (List.mem_dedup.mpr (List.mem_map.mpr ⟨r, hr, hrd⟩))

/-- Witness for C7: on the example table, the date 20000 appears with
count 1, which the theorem equates with its filtered row count. -/
theorem C7_time_series_witness :
    ((20000 : Int), 1) ∈ time_series_count exTable ∧
    1 = (exTable.filter (fun r => decide (r.raw.startTime.date = 20000))).length := by
  constructor
  · decide
  · exact ((C7_time_series exTable).2.1 ((20000 : Int), 1) (by decide)).1

theorem map_congr_mem {α β : Type} (l : List α) (f g : α → β)
    (h : ∀ a ∈ l, f a = g a) : l.map f = l.map g := by
  induction l with
  | nil => rfl
  | cons a l ih =>
    simp only [List.map_cons, h a (List.mem_cons_self a l)]
    rw [ih (fun b hb => h b (List.mem_cons_of_mem a hb))]

theorem sum_map_zero_q (ks : List String) : (ks.map (fun _ => (0 : ℚ))).sum = 0 := by
  induction ks with
  | nil => rfl
  | cons k ks ih => simp [ih]

theorem sum_map_ite_mem (ks : List String) (a : String) (c : ℚ) (g : String → ℚ) :
    a ∈ ks → ks.Nodup →
    (ks.map (fun k => if a = k then c + g k else g k)).sum = c + (ks.map g).sum := by
  induction ks with
  | nil =>
    intro ha _
    cases ha
  | cons k0 ks' ih =>
    intro ha hnd
    rcases List.nodup_cons.mp hnd with ⟨hk0, hnd'⟩
    by_cases h0 : a = k0
    · have hnotin : a ∉ ks' := by
        intro hmem
        apply hk0
        rw [← h0]
        exact hmem
      have hmap : ks'.map (fun k => if a = k then c + g k else g k) = ks'.map g :=
        map_congr_mem _ _ _ (fun k hk => if_neg (fun he => hnotin (by rw [he]; exact hk)))
      simp only [List.map_cons, List.sum_cons, if_pos h0, hmap]
      ring
    · have ha' : a ∈ ks' := by
        rcases List.mem_cons.mp ha with h1 | h1
        · exact absurd h1 h0
        · exact h1
      simp only [List.map_cons, List.sum_cons, if_neg h0, ih ha' hnd']
      ring

theorem sum_groups (key : NormRecord → String) (m : NormRecord → ℚ) :
    ∀ (t : List NormRecord) (ks : List String), ks.Nodup → (∀ r ∈ t, key r ∈ ks) →
    (ks.map (fun k => ((t.filter (fun r => decide (key r = k))).map m).sum)).sum
      = (t.map m).sum := by
  intro t
  induction t with
  | nil =>
    intro ks _ _
    simp only [List.filter_nil, List.map_nil, List.sum_nil]
    exact sum_map_zero_q ks
  | cons r t' ih =>
    intro ks hnd hcov
    have hbody : (fun k => ((List.filter (fun r2 => decide (key r2 = k)) (r :: t')).map m).sum)
        = (fun k => if key r = k
            then m r + ((t'.filter (fun r2 => decide (key r2 = k))).map m).sum
            else ((t'.filter (fun r2 => decide (key r2 = k))).map m).sum) := by
      funext k
      by_cases h : key r = k
      · simp [List.filter_cons, h]
      · simp [List.filter_cons, h]
    rw [hbody, sum_map_ite_mem ks (key r) (m r) _ (hcov r (List.mem_cons_self r t')) hnd,
        ih ks hnd (fun r2 h2 => hcov r2 (List.mem_cons_of_mem r h2))]
    simp

/-- C10: the per-group sums produced by group_sum over the sales measure
add up to total_sales of the table — every row is counted in exactly one
group. -/
theorem C10_group_sum_partition (key : NormRecord → String) (t : List NormRecord) :
    ((group_sum key (fun r => r.sales) t).map (fun p : String × ℚ => p.2)).sum
      = total_sales t := by
  have p1 : ((group_sum key (fun r => r.sales) t).map (fun p : String × ℚ => p.2)).Perm
      ((groupPairs key (fun r => r.sales) t).map (fun p : String × ℚ => p.2)) :=
    (sortBy_perm _ _).map _
  have e2 : (groupPairs key (fun r => r.sales) t).map (fun p : String × ℚ => p.2)
      = (sortedKeys key t).map
          (fun k => ((t.filter (fun r => decide (key r = k))).map (fun r => r.sales)).sum) := by
    unfold groupPairs
    rw [List.map_map]
    rfl
  have p3 : ((sortedKeys key t).map
        (fun k => ((t.filter (fun r => decide (key r = k))).map (fun r => r.sales)).sum)).Perm
      (((t.map key).dedup).map
        (fun k => ((t.filter (fun r => decide (key r = k))).map (fun r => r.sales)).sum)) :=
    (sortBy_perm _ _).map _
  rw [p1.sum_eq, e2, p3.sum_eq]
  exact sum_groups key (fun r => r.sales) t _ (List.nodup_dedup _)
    (fun r hr => List.mem_dedup.mpr (List.mem_map_of_mem key hr))


theorem parseQuoted_quote_quote (x : List Char) :
    parseQuoted ('"' :: '"' :: x) = ('"' :: (parseQuoted x).1, (parseQuoted x).2) := by
  simp [parseQuoted]

theorem parseQuoted_quote_other (c2 : Char) (x : List Char) (h : ¬(c2 = '"')) :
    parseQuoted ('"' :: c2 :: x) = ([], c2 :: x) := by
  simp [parseQuoted, h]

theorem parseQuoted_quote_nil : parseQuoted ['"'] = ([], []) := by
  simp [parseQuoted]

theorem parseQuoted_other (c : Char) (x : List Char) (h : ¬(c = '"')) :
    parseQuoted (c :: x) = (c :: (parseQuoted x).1, (parseQuoted x).2) := by
  rw [parseQuoted.eq_def]
  simp [h]

theorem parseRaw_sep (c : Char) (x : List Char) (h : c = ',' ∨ c = '\n') :
    parseRaw (c :: x) = ([], c :: x) := by
  simp only [parseRaw, if_pos h]

theorem parseRaw_notsep (c : Char) (x : List Char) (h : ¬(c = ',' ∨ c = '\n')) :
    parseRaw (c :: x) = (c :: (parseRaw x).1, (parseRaw x).2) := by
  simp only [parseRaw, if_neg h]

theorem parseQuoted_escQ (s : List Char) : ∀ (r : List Char),
    (∀ r2, r ≠ '"' :: r2) →
    parseQuoted (escQ s ++ '"' :: r) = (s, r) := by
  induction s with
  | nil =>
    intro r h
    show parseQuoted ('"' :: r) = ([], r)
    cases r with
    | nil => exact parseQuoted_quote_nil
    | cons c2 r2 =>
      have hc2 : ¬(c2 = '"') := fun he => h r2 (by rw [he])
      exact parseQuoted_quote_other c2 r2 hc2
  | cons c s' ih =>
    intro r h
    by_cases hc : c = '"'
    · subst hc
      have he : escQ ('"' :: s') ++ '"' :: r = '"' :: '"' :: (escQ s' ++ '"' :: r) := by
        simp [escQ]
      rw [he, parseQuoted_quote_quote, ih r h]
    · have he : escQ (c :: s') ++ '"' :: r = c :: (escQ s' ++ '"' :: r) := by
        simp [escQ, hc]
      rw [he, parseQuoted_other c _ hc, ih r h]

theorem parseRaw_app (s : List Char) : ∀ (r : List Char),
    (∀ c ∈ s, ¬(c = ',' ∨ c = '\n')) →
    (∀ c r2, r = c :: r2 → (c = ',' ∨ c = '\n')) →
    parseRaw (s ++ r) = (s, r) := by
  induction s with
  | nil =>
    intro r _ hr
    cases r with
    | nil => rfl
    | cons c r2 => exact parseRaw_sep c r2 (hr c r2 rfl)
  | cons c s' ih =>
    intro r hs hr
    have hc := hs c (List.mem_cons_self c s')
    have he : (c :: s') ++ r = c :: (s' ++ r) := rfl
    rw [he, parseRaw_notsep c _ hc, ih r (fun d hd => hs d (List.mem_cons_of_mem c hd)) hr]

theorem not_special_of_needsQuote_false {s : List Char} (h : needsQuote s = false) :
    ∀ c ∈ s, ¬(c = ',') ∧ ¬(c = '"') ∧ ¬(c = '\n') ∧ ¬(c = '\r') := by
  intro c hc
  have h2 := List.any_eq_false.mp h c hc
  simp only [Bool.or_eq_true, beq_iff_eq] at h2
  push_neg at h2
  tauto

theorem parseCellStart_writeCell (s : List Char) (d : Char) (r : List Char)
    (hd : d = ',' ∨ d = '\n') :
    parseCellStart (writeCell s ++ d :: r) = (s, d :: r) := by
  have hdq : ¬(d = '"') := by rcases hd with h | h <;> simp [h]
  by_cases hq : needsQuote s = true
  · simp only [writeCell, if_pos hq]
    have he : ('"' :: (escQ s ++ ['"'])) ++ d :: r = '"' :: (escQ s ++ '"' :: d :: r) := by
      simp
    rw [he]
    show parseQuoted (escQ s ++ '"' :: (d :: r)) = (s, d :: r)
    exact parseQuoted_escQ s (d :: r)
      (fun r2 he2 => by
        injection he2 with h1 h2
        exact hdq h1)
  · have hq' : needsQuote s = false := by
      cases hnq : needsQuote s
      · rfl
      · exact absurd hnq hq
    simp only [writeCell, if_neg hq]
    cases s with
    | nil =>
      show parseCellStart (d :: r) = ([], d :: r)
      have hstep : parseCellStart (d :: r) = parseRaw (d :: r) := by
        simp only [parseCellStart, if_neg hdq]
      rw [hstep, parseRaw_sep d r hd]
    | cons c s' =>
      have hcs := not_special_of_needsQuote_false hq'
      have hc := hcs c (List.mem_cons_self c s')
      have he : (c :: s') ++ d :: r = c :: (s' ++ d :: r) := rfl
      rw [he]
      have hstep : parseCellStart (c :: (s' ++ d :: r)) = parseRaw (c :: (s' ++ d :: r)) := by
        simp only [parseCellStart, if_neg hc.2.1]
      rw [hstep, ← he]
      exact parseRaw_app (c :: s') (d :: r)
        (fun e he2 => by
          have h3 := hcs e he2
          rintro (h1 | h1)
          · exact h3.1 h1
          · exact h3.2.2.1 h1)
        (fun e r2 he2 => by
          injection he2 with h1 h2
          rw [← h1]
          exact hd)

theorem parseRowAux_writeRow :
    ∀ (cells : List (List Char)), cells ≠ [] → ∀ (r : List Char) (n : Nat),
      cells.length ≤ n →
      parseRowAux n (writeRow cells ++ '\n' :: r) = (cells, r) := by
  intro cells
  induction cells with
  | nil =>
    intro h
    exact absurd rfl h
  | cons c cs ih =>
    intro _ r n hn
    cases cs with
    | nil =>
      cases n with
      | zero => exact absurd hn (by simp)
      | succ m =>
        have hw : writeRow [c] = writeCell c := by
          simp [writeRow]
        rw [hw]
        simp only [parseRowAux]
        rw [parseCellStart_writeCell c '\n' r (Or.inr rfl)]
        simp
    | cons c2 cs' =>
      cases n with
      | zero => exact absurd hn (by simp)
      | succ m =>
        have hw : writeRow (c :: c2 :: cs') = writeCell c ++ ',' :: writeRow (c2 :: cs') := by
          simp [writeRow]
        have he : writeRow (c :: c2 :: cs') ++ '\n' :: r
            = writeCell c ++ ',' :: (writeRow (c2 :: cs') ++ '\n' :: r) := by
          rw [hw]
          simp
        rw [he]
        simp only [parseRowAux]
        rw [parseCellStart_writeCell c ',' (writeRow (c2 :: cs') ++ '\n' :: r) (Or.inl rfl)]
        have hrec := ih (by simp) r m (Nat.le_of_succ_le_succ hn)
        simp only [hrec]
        simp

theorem length_le_writeRow (cells : List (List Char)) :
    cells.length ≤ (writeRow cells).length + 1 := by
  induction cells with
  | nil => simp [writeRow]
  | cons c cs ih =>
    cases cs with
    | nil => simp [writeRow]
    | cons c2 cs' =>
      have hw : writeRow (c :: c2 :: cs') = writeCell c ++ ',' :: writeRow (c2 :: cs') := by
        simp [writeRow]
      rw [hw]
      simp only [List.length_cons, List.length_append] at ih ⊢
      omega

theorem parseRecsAux_cons (n : Nat) (l : List Char) (hl : l ≠ []) :
    parseRecsAux (n + 1) l =
      (parseRowAux (l.length + 1) l).1 :: parseRecsAux n (parseRowAux (l.length + 1) l).2 := by
  cases l with
  | nil => exact absurd rfl hl
  | cons c l' => rfl

theorem length_le_writeTable (rows : List (List (List Char))) :
    rows.length ≤ (writeTable rows).length := by
  induction rows with
  | nil => simp [writeTable]
  | cons row rows' ih =>
    simp only [writeTable, List.length_cons, List.length_append]
    omega

theorem parseRecsAux_writeTable :
    ∀ (rows : List (List (List Char))), (∀ row ∈ rows, row ≠ []) →
    ∀ n, rows.length ≤ n → parseRecsAux n (writeTable rows) = rows := by
  intro rows
  induction rows with
  | nil =>
    intro _ n _
    cases n <;> rfl
  | cons row rows' ih =>
    intro hne n hn
    cases n with
    | zero => exact absurd hn (by simp)
    | succ m =>
      have hrowne : row ≠ [] := hne row (List.mem_cons_self row rows')
      have hLne : writeTable (row :: rows') ≠ [] := by
        simp only [writeTable]
        cases hw : writeRow row
        · simp
        · simp
      rw [parseRecsAux_cons m _ hLne]
      have h1 : parseRowAux ((writeTable (row :: rows')).length + 1) (writeTable (row :: rows'))
          = (row, writeTable rows') := by
        have hfuel : row.length ≤ (writeTable (row :: rows')).length + 1 := by
          have h2 := length_le_writeRow row
          simp only [writeTable, List.length_append, List.length_cons]
          omega
        exact parseRowAux_writeRow row hrowne (writeTable rows') _ hfuel
      rw [h1]
      rw [ih (fun rr h => hne rr (List.mem_cons_of_mem row h)) m (Nat.le_of_succ_le_succ hn)]

theorem parseCSV_writeTable (rows : List (List (List Char)))
    (h : ∀ row ∈ rows, row ≠ []) :
    parseCSV (writeTable rows) = rows :=
  parseRecsAux_writeTable rows h _
    (le_trans (length_le_writeTable rows) (Nat.le_succ _))

theorem csvRows_nonempty (t : List NormRecord) :
    ∀ row ∈ csvRows t, row ≠ [] := by
  intro row hrow
  rcases List.mem_map.mp hrow with ⟨sr, hsr, hmap⟩
  rcases List.mem_cons.mp hsr with h1 | h1
  · rw [← hmap, h1]
    simp [csvHeader]
  · rcases List.mem_map.mp h1 with ⟨rec0, _, hrec⟩
    rw [← hmap, ← hrec]
    simp [rowToStrings]

/-- C8: parsing the CSV export of a filtered table yields exactly the
header row followed by one row per session carrying the same stringified
cell values, so the round trip preserves the row count and every column
value. -/
theorem C8_csv_round_trip (t : List NormRecord) :
    parseCSV (to_csv t) = csvRows t ∧
    (parseCSV (to_csv t)).length = count t + 1 := by
  have h : parseCSV (to_csv t) = csvRows t :=
    parseCSV_writeTable (csvRows t) (csvRows_nonempty t)
  refine ⟨h, ?_⟩
  rw [h]
  simp [csvRows, count]
